import Mathlib

/-!
# A shallow embedding of `arm_archive.py`

This file embeds the core of the `arm_archive` repository (a client for the
ARM data archive) in Lean 4 and proves properties of the embedding.

The remote services (the SOAP web service reached through `suds`, and the
FTP server reached through `ftplib`) are external collaborators: they are
modelled as explicit parameters (reply values, oracles, and an abstract FTP
remote).  The regular-expression engine of the `re` module is abstracted as
a `search` parameter wherever the pattern is caller-supplied; the one fixed
pattern of `order_files` is compiled by hand (it admits no backtracking, see
`confirmAt`).  The `datetime` library calls (`strptime`, `+ timedelta(days=1)`,
`strftime`) are modelled from CPython's own implementation of the proleptic
Gregorian calendar (`Lib/datetime.py`, `Lib/_strptime.py`).

Machine integers do not occur: every quantity is a mathematical `Nat` or a
`String`, as in Python.
-/

/-! ## Python string comparison and the `sorted` builtin

Python compares strings lexicographically by code point.  `sorted` is a
stable ascending sort; insertion sort below is extensionally the same
function on lists of strings. -/

/-- Lexicographic-by-code-point comparison of char lists: Python's `<=` on
strings restricted to the corresponding character sequences. -/
def pyStrLeAux : List Char → List Char → Bool
  | [], _ => true
  | _ :: _, [] => false
  | c :: cs, d :: ds =>
    if c.toNat < d.toNat then true
    else if d.toNat < c.toNat then false
    else pyStrLeAux cs ds

/-- Python's `<=` on strings (lexicographic by code point). -/
def pyStrLe (a b : String) : Bool :=
  pyStrLeAux a.data b.data

/-- Insert a string into an already sorted list, before the first
element it is `<=` to (this keeps the sort stable). -/
def insortStr (x : String) : List String → List String
  | [] => [x]
  | y :: ys => if pyStrLe x y then x :: y :: ys else y :: insortStr x ys

/-- Python's `sorted` builtin on a list of strings: a stable ascending
sort, realised as insertion sort. -/
def pySorted : List String → List String
  | [] => []
  | x :: xs => insortStr x (pySorted xs)

/-! ## `_regex_filter` and the listing operations -/

/-- `_regex_filter(sequence, pattern)` from `arm_archive.py`.  The `re`
module is abstracted: `search p item` stands for
`re.compile(p).search(item) is not None`. -/
def regex_filter (search : String → String → Bool)
    (sequence : List String) (pattern : Option String) : List String :=
  match pattern with
  | none => sequence
  | some p => sequence.filter fun item => search p item

/-- `list_datastreams(pattern)` from `arm_archive.py`; `getDataStreams`
is the web service's reply. -/
def list_datastreams (search : String → String → Bool)
    (getDataStreams : List String) (pattern : Option String) : List String :=
  pySorted (regex_filter search getDataStreams pattern)

/-! ## String-encoded booleans: `valid_user` and `order_clear` -/

/-- `valid_user(user)` from `arm_archive.py`, after the remote call:
`valid` is the `isValidUser` wire reply. -/
def valid_user (valid : String) : Bool :=
  if valid = "true" then true else false

/-- `order_clear(user, order_id)` from `arm_archive.py`, after the remote
call: `response` is the `clearOrder` wire reply. -/
def order_clear (response : String) : Bool :=
  if response = "true" then true else false

/-! ## `order_files` and its fixed confirmation pattern

`order_files` matches the reply of `processOrder` against the regex
`user:\s*([a-z]+), order session ID:\s*([0-9]+) number of files ordered:\s*([0-9]+)`
with `re.search`.  At this pattern a greedy left-to-right matcher is
equivalent to the backtracking engine: every `\s*` is followed by a
character class that excludes whitespace, `[a-z]+` is followed by `,`,
the first `[0-9]+` is followed by a space, and the final `[0-9]+` ends
the pattern, so no shorter run of a repeated class can ever extend a
match.  `\s` is modelled for the ASCII whitespace characters. -/

/-- `[a-z]`. -/
def isLowerAZ (c : Char) : Bool :=
  97 ≤ c.toNat ∧ c.toNat ≤ 122

/-- `[0-9]`. -/
def isDigit09 (c : Char) : Bool :=
  48 ≤ c.toNat ∧ c.toNat ≤ 57

/-- `\s` (ASCII): space, tab, newline, carriage return, vertical tab,
form feed. -/
def isPySpace (c : Char) : Bool :=
  c.toNat = 32 ∨ c.toNat = 9 ∨ c.toNat = 10 ∨ c.toNat = 13 ∨
    c.toNat = 11 ∨ c.toNat = 12

/-- Consume a literal: `stripLit lit cs` is the rest of `cs` after the
prefix `lit`, or `none` when `lit` is not a prefix. -/
def stripLit : List Char → List Char → Option (List Char)
  | [], cs => some cs
  | _ :: _, [] => none
  | l :: ls, c :: cs => if c = l then stripLit ls cs else none

/-- One attempt of the confirmation pattern anchored at the start of
`cs`; on success, the three captured groups. -/
def confirmAt (cs : List Char) : Option (String × String × String) :=
  match stripLit "user:".data cs with
  | none => none
  | some r1 =>
    let r2 := r1.dropWhile isPySpace
    let g1 := r2.takeWhile isLowerAZ
    if g1 = [] then none else
    match stripLit ", order session ID:".data (r2.dropWhile isLowerAZ) with
    | none => none
    | some r3 =>
      let r4 := r3.dropWhile isPySpace
      let g2 := r4.takeWhile isDigit09
      if g2 = [] then none else
      match stripLit " number of files ordered:".data (r4.dropWhile isDigit09) with
      | none => none
      | some r5 =>
        let r6 := r5.dropWhile isPySpace
        let g3 := r6.takeWhile isDigit09
        if g3 = [] then none else
        some (⟨g1⟩, ⟨g2⟩, ⟨g3⟩)

/-- `re.search` for the confirmation pattern: try the match at each
position, left to right. -/
def confirmSearch : List Char → Option (String × String × String)
  | [] => confirmAt []
  | c :: cs =>
    match confirmAt (c :: cs) with
    | some g => some g
    | none => confirmSearch cs

/-- `order_files(user, filenames)` from `arm_archive.py`, after the remote
call: `response` is the `processOrder` wire reply.  Returns the
`(flag, status)` pair: the captured groups on a match, the verbatim
response otherwise. -/
def order_files (response : String) :
    Bool × ((String × String × String) ⊕ String) :=
  match confirmSearch response.data with
  | some g => (true, Sum.inl g)
  | none => (false, Sum.inr response)

/-- The confirmation pattern matches somewhere in `t` (a suffix of `t`
begins with a match). -/
def ConfirmMatches (t : String) : Prop :=
  ∃ i, i < t.data.length + 1 ∧ (confirmAt (t.data.drop i)).isSome = true

/-! ## The proleptic Gregorian calendar of CPython's `datetime`

`list_files` defaults a missing end date with
`(datetime.strptime(startdate, '%Y%m%d') + timedelta(days=1)).strftime('%Y%m%d')`.
CPython adds a `timedelta` to a date through ordinals:
`date.fromordinal(d.toordinal() + days)`, raising `OverflowError` when the
resulting ordinal leaves `1 .. _MAXORDINAL`.  The functions below are the
corresponding `_ymd2ord` / `_ord2ymd` arithmetic from `Lib/datetime.py`,
with Python's `//` and `%` on non-negative ints rendered as `Nat` division
and remainder. -/

/-- `_DAYS_IN_MONTH` (non-leap). -/
def daysInMonthTable (m : Nat) : Nat :=
  match m with
  | 1 => 31 | 2 => 28 | 3 => 31 | 4 => 30 | 5 => 31 | 6 => 30
  | 7 => 31 | 8 => 31 | 9 => 30 | 10 => 31 | 11 => 30 | 12 => 31
  | _ => 0

/-- `_is_leap(year)`. -/
def isLeap (y : Nat) : Bool :=
  (y % 4 == 0 && y % 100 != 0) || y % 400 == 0

/-- `_days_in_month` as a function of the leap flag. -/
def daysInMonthFlag (L : Bool) (m : Nat) : Nat :=
  if m = 2 ∧ L = true then 29 else daysInMonthTable m

/-- `_days_in_month(year, month)`. -/
def daysInMonth (y m : Nat) : Nat :=
  daysInMonthFlag (isLeap y) m

/-- `_DAYS_BEFORE_MONTH`. -/
def daysBeforeMonthTable (m : Nat) : Nat :=
  match m with
  | 1 => 0 | 2 => 31 | 3 => 59 | 4 => 90 | 5 => 120 | 6 => 151
  | 7 => 181 | 8 => 212 | 9 => 243 | 10 => 273 | 11 => 304 | 12 => 334
  | _ => 0

/-- `_days_before_month` as a function of the leap flag. -/
def daysBeforeMonthFlag (L : Bool) (m : Nat) : Nat :=
  daysBeforeMonthTable m + if 2 < m ∧ L = true then 1 else 0

/-- `_days_before_month(year, month)`. -/
def daysBeforeMonth (y m : Nat) : Nat :=
  daysBeforeMonthFlag (isLeap y) m

/-- `_days_before_year(year)`: `y*365 + y//4 - y//100 + y//400` for
`y = year - 1`, reordered so the truncated `Nat` subtraction never
truncates (`y//100 <= y//4`). -/
def daysBeforeYear (y : Nat) : Nat :=
  365 * (y - 1) + (y - 1) / 4 + (y - 1) / 400 - (y - 1) / 100

/-- `_ymd2ord(year, month, day)`: day 1 of year 1 is ordinal 1. -/
def ymd2ord (y m d : Nat) : Nat :=
  daysBeforeYear y + daysBeforeMonth y m + d

/-- `_MAXORDINAL`, the ordinal of 9999-12-31. -/
def maxOrdinal : Nat := 3652059

/-- The tail of `_ord2ymd`: extract (month, day) from a leap flag and a
day-of-year offset `n` (0 for January 1).  `month = (n + 50) >> 5` is a
first guess, corrected downwards by one when the guessed month begins
after `n`. -/
def monthPart (L : Bool) (n : Nat) : Nat × Nat :=
  let month := (n + 50) / 32
  let preceding := daysBeforeMonthFlag L month
  if n < preceding then
    (month - 1, n - (preceding - daysInMonthFlag L (month - 1)) + 1)
  else
    (month, n - preceding + 1)

/-- `_ord2ymd` after its first `divmod(n, _DI400Y)`: the (year, month,
day) at offset `r < 146097` into a 400-year cycle whose first year is 1.
The special case `n1 == 4 or n100 == 4` is the last day of a 4-year or
400-year block (December 31 of a leap year closing the cycle). -/
def ord2ymdInCycle (r : Nat) : Nat × Nat × Nat :=
  let n100 := r / 36524
  let r2 := r % 36524
  let n4 := r2 / 1461
  let r3 := r2 % 1461
  let n1 := r3 / 365
  let n := r3 % 365
  if n1 = 4 ∨ n100 = 4 then
    (100 * n100 + 4 * n4 + n1, 12, 31)
  else
    let md := monthPart (n1 == 3 && (n4 != 24 || n100 == 3)) n
    (100 * n100 + 4 * n4 + n1 + 1, md.1, md.2)

/-- `_ord2ymd(n)`: `divmod(n - 1, _DI400Y)` selects the 400-year cycle,
`ord2ymdInCycle` the date inside it. -/
def ord2ymd (n : Nat) : Nat × Nat × Nat :=
  let p := ord2ymdInCycle ((n - 1) % 146097)
  (400 * ((n - 1) / 146097) + p.1, p.2.1, p.2.2)

/-- `ymd2ord` on a (year, month, day) triple. -/
def ymd2ordT (p : Nat × Nat × Nat) : Nat := ymd2ord p.1 p.2.1 p.2.2

/-- Advancing a calendar date by exactly one day at the field level, with
month and year rollover: the specified meaning of the default end date. -/
def nextCalendarDay : Nat × Nat × Nat → Nat × Nat × Nat
  | (y, m, d) =>
    if d < daysInMonth y m then (y, m, d + 1)
    else if m < 12 then (y, m + 1, 1)
    else (y + 1, 1, 1)

/-- The dates `datetime.date` accepts (`MAXYEAR` aside, which the caller
checks where it matters). -/
def ValidDate (y m d : Nat) : Prop :=
  1 ≤ y ∧ 1 ≤ m ∧ m ≤ 12 ∧ 1 ≤ d ∧ d ≤ daysInMonth y m

/-- One case of the `monthPart` inversion check: for day `d` of month `m`
under leap flag `L`, `monthPart` recovers `(m, d)` from the day-of-year
offset. -/
def checkMonthPartOne (L : Bool) (m d : Nat) : Bool :=
  monthPart L (daysBeforeMonthFlag L m + d - 1) == (m, d)

/-- `checkMonthPartOne` for days `1 .. d`. -/
def checkMonthPartDays (L : Bool) (m : Nat) : Nat → Bool
  | 0 => true
  | d + 1 => checkMonthPartOne L m (d + 1) && checkMonthPartDays L m d

/-- `checkMonthPartDays` over months `1 .. m`. -/
def checkMonthPartMonths (L : Bool) : Nat → Bool
  | 0 => true
  | m + 1 =>
    checkMonthPartDays L (m + 1) (daysInMonthFlag L (m + 1)) &&
      checkMonthPartMonths L m

/-- The whole `monthPart` inversion check: both leap flags, all months,
all days. -/
def checkMonthPart : Bool :=
  checkMonthPartMonths false 12 && checkMonthPartMonths true 12

/-- `%02d`. -/
def twoDigits (n : Nat) : String :=
  ⟨[Nat.digitChar (n / 10 % 10), Nat.digitChar (n % 10)]⟩

/-- `%04d`. -/
def fourDigits (n : Nat) : String :=
  ⟨[Nat.digitChar (n / 1000 % 10), Nat.digitChar (n / 100 % 10),
    Nat.digitChar (n / 10 % 10), Nat.digitChar (n % 10)]⟩

/-- `strftime('%Y%m%d')` for years 1900 to 9999 — the only years
`datetime.strftime` accepts on the repository's declared platform
(Python 2.7 raises `ValueError` for years before 1900; see
`defaultEnddate`), and in that range `%Y` is exactly four digits on
every platform (`%m`/`%d` are zero-padded to two). -/
def formatYmd (p : Nat × Nat × Nat) : String :=
  fourDigits p.1 ++ twoDigits p.2.1 ++ twoDigits p.2.2

/-! ## `strptime(s, '%Y%m%d')`

CPython's `_strptime` compiles the format to the regex
`(?P<Y>\d\d\d\d)(?P<m>1[0-2]|0[1-9]|[1-9])(?P<d>3[01]|[12]\d|0[1-9]|[1-9])`,
matches it at the start of the string (first match in backtracking
order, with no end anchor), raises when the match does not consume the
whole string ("unconverted data remains"), and finally builds
`date(year, month, day)`, which validates its three fields.  Note `%m`
and `%d` also accept one-digit values. -/

/-- The numeric value of a digit character. -/
def digitVal (c : Char) : Nat := c.toNat - 48

/-- `\d\d\d\d` (the `%Y` directive). -/
def matchYear : List Char → Option (Nat × List Char)
  | a :: b :: c :: d :: rest =>
    if isDigit09 a && isDigit09 b && isDigit09 c && isDigit09 d then
      some (1000 * digitVal a + 100 * digitVal b + 10 * digitVal c + digitVal d,
        rest)
    else none
  | _ => none

/-- The alternatives of `%m` = `1[0-2]|0[1-9]|[1-9]` that match a prefix
of `cs`, as (month, rest) pairs in the regex's preference order. -/
def monthAlts (cs : List Char) : List (Nat × List Char) :=
  match cs with
  | c1 :: c2 :: rest =>
    (if c1 = '1' ∧ (c2 = '0' ∨ c2 = '1' ∨ c2 = '2') then
      [(10 + digitVal c2, rest)] else []) ++
    (if c1 = '0' ∧ 49 ≤ c2.toNat ∧ c2.toNat ≤ 57 then
      [(digitVal c2, rest)] else []) ++
    (if 49 ≤ c1.toNat ∧ c1.toNat ≤ 57 then
      [(digitVal c1, c2 :: rest)] else [])
  | [c1] =>
    if 49 ≤ c1.toNat ∧ c1.toNat ≤ 57 then [(digitVal c1, [])] else []
  | [] => []

/-- The alternatives of `%d` = `3[01]|[12]\d|0[1-9]|[1-9]` that match a
prefix of `cs`, in the regex's preference order. -/
def dayAlts (cs : List Char) : List (Nat × List Char) :=
  match cs with
  | c1 :: c2 :: rest =>
    (if c1 = '3' ∧ (c2 = '0' ∨ c2 = '1') then
      [(30 + digitVal c2, rest)] else []) ++
    (if (c1 = '1' ∨ c1 = '2') ∧ isDigit09 c2 = true then
      [(10 * digitVal c1 + digitVal c2, rest)] else []) ++
    (if c1 = '0' ∧ 49 ≤ c2.toNat ∧ c2.toNat ≤ 57 then
      [(digitVal c2, rest)] else []) ++
    (if 49 ≤ c1.toNat ∧ c1.toNat ≤ 57 then
      [(digitVal c1, c2 :: rest)] else [])
  | [c1] =>
    if 49 ≤ c1.toNat ∧ c1.toNat ≤ 57 then [(digitVal c1, [])] else []
  | [] => []

/-- The backtracking order over `(%m)(%d)`: month alternatives outermost,
day alternatives innermost; the first pair that matches wins (the regex
has no end anchor, so nothing later can reject it). -/
def matchMonthDay : List (Nat × List Char) → Option (Nat × Nat × List Char)
  | [] => none
  | (mv, r) :: more =>
    match dayAlts r with
    | (dv, r2) :: _ => some (mv, dv, r2)
    | [] => matchMonthDay more

/-- `datetime.strptime(s, '%Y%m%d')` as a partial function: `none` where
CPython raises `ValueError` (no regex match, unconverted data, or a field
out of range for `date`). -/
def strptimeYmd (s : String) : Option (Nat × Nat × Nat) :=
  match matchYear s.data with
  | none => none
  | some (y, rest) =>
    match matchMonthDay (monthAlts rest) with
    | none => none
    | some (m, d, rest2) =>
      if rest2 = [] ∧ 1 ≤ y ∧ y ≤ 9999 ∧ 1 ≤ m ∧ m ≤ 12 ∧
          1 ≤ d ∧ d ≤ daysInMonth y m then
        some (y, m, d)
      else none

/-! ## `list_files` -/

/-- The default end date of `list_files`:
`(datetime.strptime(startdate, '%Y%m%d') + timedelta(days=1)).strftime('%Y%m%d')`,
with its three exceptional exits made explicit: `ValueError` when
`strptime` rejects the string, `OverflowError` when the date addition
leaves `1 .. _MAXORDINAL`, and `ValueError` again from `strftime` when
the resulting year is before 1900 (Python 2.7, the repository's declared
platform, refuses to format such years). -/
def defaultEnddate (startdate : String) : Except String String :=
  match strptimeYmd startdate with
  | none => Except.error "ValueError"
  | some p =>
    let o := ymd2ord p.1 p.2.1 p.2.2 + 1
    if o ≤ maxOrdinal then
      if (ord2ymd o).1 < 1900 then Except.error "ValueError"
      else Except.ok (formatYmd (ord2ymd o))
    else Except.error "OverflowError"

/-- One run of `list_files`: the `(datastreams, startdate, enddate)`
arguments passed to the `getFiles` web service call when control reaches
it, and the returned list (or the exception that escaped). -/
structure ListFilesRun where
  query : Option ((String ⊕ List String) × String × String)
  result : Except String (List String)

/-- `list_files(datastreams, startdate, enddate, pattern)` from
`arm_archive.py`.  `getFiles` is the web service: it maps the query
arguments to the reply list.  The sentinel test is the code's
`len(files) == 1 and files[0] == 'No data files found'`. -/
def list_files (search : String → String → Bool)
    (getFiles : (String ⊕ List String) → String → String → List String)
    (datastreams : String ⊕ List String) (startdate : String)
    (enddate : Option String) (pattern : Option String) : ListFilesRun :=
  let endE : Except String String :=
    match enddate with
    | some e => Except.ok e
    | none => defaultEnddate startdate
  match endE with
  | Except.error e => ⟨none, Except.error e⟩
  | Except.ok en =>
    let files := getFiles datastreams startdate en
    if files.length = 1 ∧ files.getD 0 "" = "No data files found" then
      ⟨some (datastreams, startdate, en), Except.ok []⟩
    else
      ⟨some (datastreams, startdate, en),
        Except.ok (pySorted (regex_filter search files pattern))⟩

/-! ## The Bulk Transfer Gateway (`ftplib`)

`order_download`, `list_order_files` and `list_orders_ready` drive an FTP
session.  The remote server is abstracted as `FTPRemote`; an execution is
recorded as the sequence of FTP commands issued, the final state of the
local working directory, and whether the Python function returned
normally or an exception escaped. -/

/-- The FTP commands the client issues. -/
inductive FTPCmd where
  | login
  | cwd (dir : String)
  | nlst
  | retr (name : String)
  | quit
deriving DecidableEq

/-- An abstract FTP remote: whether login succeeds, whether each
directory change succeeds, the directory listing `nlst` returns, and the
bytes served for each `RETR` name (`none`: that transfer raises). -/
structure FTPRemote where
  loginOk : Bool
  cwdOk : String → Bool
  listing : List String
  retrData : String → Option (List Nat)

/-- The local working directory: file name to contents. -/
def LocalFS : Type := String → Option (List Nat)

/-- `open(name, 'wb').write(bytes)`: create or truncate `name`, then
write `bytes`. -/
def fsWrite (fs : LocalFS) (name : String) (bytes : List Nat) : LocalFS :=
  fun n => if n = name then some bytes else fs n

/-- A run of `order_download`: the FTP commands issued in order, the
final local directory, and whether the call returned normally
(`ok = false`: an exception escaped after the commands in `trace`). -/
structure DownloadRun where
  trace : List FTPCmd
  fs : LocalFS
  ok : Bool

/-- The `for filename in files` loop of `order_download`: each iteration
issues `RETR filename` with callback `open(filename, 'wb').write`.  The
local file is opened (truncated) before the transfer, so a failing
transfer still leaves an empty file behind, and the loop stops at the
first failure (the exception propagates). -/
def retrLoop (remote : FTPRemote) :
    List String → List FTPCmd → LocalFS → List FTPCmd × LocalFS × Bool
  | [], trace, fs => (trace, fs, true)
  | f :: rest, trace, fs =>
    match remote.retrData f with
    | some bytes =>
      retrLoop remote rest (trace ++ [FTPCmd.retr f]) (fsWrite fs f bytes)
    | none => (trace ++ [FTPCmd.retr f], fsWrite fs f [], false)

/-- `order_download(user, order_id, files)` from `arm_archive.py` over an
abstract remote and a starting local directory.  `files` mirrors the
Python argument: `None`, a single name, or a list of names.  `ftp.quit()`
is issued only after the loop finishes. -/
def order_download (remote : FTPRemote) (user : String) (order_id : String)
    (files : Option (String ⊕ List String)) (fs0 : LocalFS) : DownloadRun :=
  if remote.loginOk = false then ⟨[FTPCmd.login], fs0, false⟩
  else if remote.cwdOk user = false then
    ⟨[FTPCmd.login, FTPCmd.cwd user], fs0, false⟩
  else if remote.cwdOk order_id = false then
    ⟨[FTPCmd.login, FTPCmd.cwd user, FTPCmd.cwd order_id], fs0, false⟩
  else
    let t0 := [FTPCmd.login, FTPCmd.cwd user, FTPCmd.cwd order_id]
    let fl : List String × List FTPCmd :=
      match files with
      | none => (remote.listing, t0 ++ [FTPCmd.nlst])
      | some (Sum.inl one) => ([one], t0)
      | some (Sum.inr many) => (many, t0)
    match retrLoop remote fl.1 fl.2 fs0 with
    | (t, fs, true) => ⟨t ++ [FTPCmd.quit], fs, true⟩
    | (t, fs, false) => ⟨t, fs, false⟩

/-- A run of `list_order_files` (or `list_orders_ready`): the commands
issued and the returned listing (`none`: an exception escaped). -/
structure ListRun where
  trace : List FTPCmd
  result : Option (List String)

/-- `list_order_files(user, order_id)` from `arm_archive.py`: it returns
`ftp.nlst()` directly — no `ftp.quit()` on any path. -/
def list_order_files (remote : FTPRemote) (user : String)
    (order_id : String) : ListRun :=
  if remote.loginOk = false then ⟨[FTPCmd.login], none⟩
  else if remote.cwdOk user = false then
    ⟨[FTPCmd.login, FTPCmd.cwd user], none⟩
  else if remote.cwdOk order_id = false then
    ⟨[FTPCmd.login, FTPCmd.cwd user, FTPCmd.cwd order_id], none⟩
  else
    ⟨[FTPCmd.login, FTPCmd.cwd user, FTPCmd.cwd order_id, FTPCmd.nlst],
      some remote.listing⟩

/-- The names retrieved (`RETR` commands) in a trace, in order. -/
def retrNames (trace : List FTPCmd) : List String :=
  trace.filterMap fun c =>
    match c with
    | FTPCmd.retr n => some n
    | _ => none

/-! ## Concrete fixtures for the closed statements -/

/-- A remote where the transfer of `f2.nc` fails after `f1.nc`
succeeds. -/
def demoRemote : FTPRemote where
  loginOk := true
  cwdOk := fun _ => true
  listing := ["f1.nc", "f2.nc"]
  retrData := fun n => if n = "f2.nc" then none else some [1]

/-- A remote where every transfer succeeds. -/
def okRemote : FTPRemote where
  loginOk := true
  cwdOk := fun _ => true
  listing := ["f1.nc", "f2.nc"]
  retrData := fun _ => some [7]

/-- An empty local working directory. -/
def emptyFS : LocalFS := fun _ => none

/-- A local directory already holding `f1.nc` with contents `[9]`. -/
def preFS : LocalFS := fun n => if n = "f1.nc" then some [9] else none

/-- A stand-in for the abstracted regex engine in closed statements. -/
def anySearch : String → String → Bool := fun _ _ => true

/-- A stand-in `getFiles` web-service call in closed statements. -/
def noFiles : (String ⊕ List String) → String → String → List String :=
  fun _ _ _ => []

/-- A concrete datastream argument for closed statements. -/
def oneDS : String ⊕ List String := Sum.inl "sgpmetE13.b1"

/-! ## Theorems: sorting infrastructure -/

theorem pyStrLeAux_total : ∀ xs ys : List Char,
    pyStrLeAux xs ys = true ∨ pyStrLeAux ys xs = true := by
  intro xs
  induction xs with
  | nil => intro ys; left; rfl
  | cons c cs ih =>
    intro ys
    cases ys with
    | nil => right; rfl
    | cons d ds =>
      simp only [pyStrLeAux]
      rcases Nat.lt_trichotomy c.toNat d.toNat with h | h | h
      · left; simp [h]
      · simp only [h, Nat.lt_irrefl, if_false]
        exact ih ds
      · right; simp [h, Nat.lt_asymm h]

theorem pyStrLeAux_trans : ∀ xs ys zs : List Char,
    pyStrLeAux xs ys = true → pyStrLeAux ys zs = true →
    pyStrLeAux xs zs = true := by
  intro xs
  induction xs with
  | nil => intro ys zs _ _; rfl
  | cons c cs ih =>
    intro ys zs hxy hyz
    cases ys with
    | nil => simp [pyStrLeAux] at hxy
    | cons d ds =>
      cases zs with
      | nil => simp [pyStrLeAux] at hyz
      | cons e es =>
        simp only [pyStrLeAux] at hxy hyz ⊢
        by_cases h1 : c.toNat < d.toNat
        · by_cases h2 : d.toNat < e.toNat
          · simp [show c.toNat < e.toNat from by omega]
          · by_cases h3 : e.toNat < d.toNat
            · simp [h2, h3] at hyz
            · simp [show c.toNat < e.toNat from by omega]
        · by_cases h4 : d.toNat < c.toNat
          · simp [h1, h4] at hxy
          · by_cases h2 : d.toNat < e.toNat
            · simp [show c.toNat < e.toNat from by omega]
            · by_cases h3 : e.toNat < d.toNat
              · simp [h2, h3] at hyz
              · have hce : ¬ c.toNat < e.toNat := by omega
                have hec : ¬ e.toNat < c.toNat := by omega
                simp only [if_neg h1, if_neg h4] at hxy
                simp only [if_neg h2, if_neg h3] at hyz
                simp only [if_neg hce, if_neg hec]
                exact ih ds es hxy hyz

theorem pyStrLe_total (a b : String) :
    pyStrLe a b = true ∨ pyStrLe b a = true :=
  pyStrLeAux_total a.data b.data

theorem pyStrLe_trans {a b c : String} (h1 : pyStrLe a b = true)
    (h2 : pyStrLe b c = true) : pyStrLe a c = true :=
  pyStrLeAux_trans a.data b.data c.data h1 h2

theorem insortStr_perm (x : String) (l : List String) :
    (insortStr x l).Perm (x :: l) := by
  induction l with
  | nil => simp [insortStr]
  | cons y ys ih =>
    simp only [insortStr]
    by_cases h : pyStrLe x y = true
    · simp [h]
    · simp only [h, if_false]
      exact ((ih.cons y).trans (List.Perm.swap x y ys))

theorem pySorted_perm (l : List String) : (pySorted l).Perm l := by
  induction l with
  | nil => simp [pySorted]
  | cons x xs ih =>
    exact (insortStr_perm x (pySorted xs)).trans (ih.cons x)

theorem insortStr_pairwise (x : String) (l : List String)
    (h : l.Pairwise fun a b => pyStrLe a b = true) :
    (insortStr x l).Pairwise fun a b => pyStrLe a b = true := by
  induction l with
  | nil => simp [insortStr]
  | cons y ys ih =>
    simp only [insortStr]
    by_cases hxy : pyStrLe x y = true
    · rw [if_pos hxy]
      refine List.Pairwise.cons ?_ h
      intro b hb
      rcases List.mem_cons.mp hb with hbx | hbys
      · rw [hbx]; exact hxy
      · exact pyStrLe_trans hxy ((List.pairwise_cons.mp h).1 b hbys)
    · have hyx : pyStrLe y x = true :=
        (pyStrLe_total x y).resolve_left hxy
      rw [if_neg hxy]
      refine List.Pairwise.cons ?_ (ih (List.pairwise_cons.mp h).2)
      intro b hb
      have hb2 : b ∈ x :: ys := (insortStr_perm x ys).mem_iff.mp hb
      rcases List.mem_cons.mp hb2 with hbx | hbys
      · rw [hbx]; exact hyx
      · exact (List.pairwise_cons.mp h).1 b hbys

theorem pySorted_pairwise (l : List String) :
    (pySorted l).Pairwise fun a b => pyStrLe a b = true := by
  induction l with
  | nil => simp [pySorted]
  | cons x xs ih => exact insortStr_pairwise x (pySorted xs) ih

/-! ## Theorems: the confirmation search -/

theorem confirmSearch_isSome_iff : ∀ cs : List Char,
    (confirmSearch cs).isSome = true ↔
      ∃ i, i < cs.length + 1 ∧ (confirmAt (cs.drop i)).isSome = true := by
  intro cs
  induction cs with
  | nil =>
    constructor
    · intro h; exact ⟨0, by omega, h⟩
    · rintro ⟨i, _, hi⟩
      simpa [List.drop_nil] using hi
  | cons c cs ih =>
    simp only [confirmSearch]
    cases hat : confirmAt (c :: cs) with
    | some g =>
      constructor
      · intro _
        exact ⟨0, by omega, by simp [List.drop_zero, hat]⟩
      · intro _; simp
    | none =>
      constructor
      · intro h
        obtain ⟨i, hl, hi⟩ := ih.mp h
        refine ⟨i + 1, by simpa using Nat.succ_lt_succ hl, ?_⟩
        simpa [List.drop_succ_cons] using hi
      · rintro ⟨i, hl, hi⟩
        cases i with
        | zero => rw [List.drop_zero] at hi; rw [hat] at hi; simp at hi
        | succ j =>
          refine ih.mpr ⟨j, by simpa using Nat.lt_of_succ_lt_succ hl, ?_⟩
          simpa [List.drop_succ_cons] using hi

/-- C3: `order_files` returns `(True, groups)` exactly when the fixed
confirmation pattern matches somewhere in the reply; on any other reply
it returns `(False, reply)` with the server's text preserved verbatim. -/
theorem c3_order_files_confirmation (t : String) :
    (ConfirmMatches t → ∃ g, order_files t = (true, Sum.inl g)) ∧
    (¬ ConfirmMatches t → order_files t = (false, Sum.inr t)) := by
  constructor
  · intro hm
    have h : (confirmSearch t.data).isSome = true :=
      (confirmSearch_isSome_iff t.data).mpr hm
    unfold order_files
    cases hcs : confirmSearch t.data with
    | some g => exact ⟨g, rfl⟩
    | none => rw [hcs] at h; simp at h
  · intro hn
    have h : ¬ (confirmSearch t.data).isSome = true := fun h =>
      hn ((confirmSearch_isSome_iff t.data).mp h)
    unfold order_files
    cases hcs : confirmSearch t.data with
    | some g => exact absurd (by rw [hcs]; rfl) h
    | none => rfl

/-- The spec's two concrete examples, derived through
`c3_order_files_confirmation`: the literal confirmation line yields the
three captured groups, and a non-matching reply is preserved verbatim. -/
theorem c3_order_files_confirmation_witness :
    order_files "user: jdoe, order session ID: 12345 number of files ordered: 7" =
      (true, Sum.inl ("jdoe", "12345", "7")) ∧
    order_files "Error: quota exceeded" = (false, Sum.inr "Error: quota exceeded") := by
  constructor
  · have h := (c3_order_files_confirmation
      "user: jdoe, order session ID: 12345 number of files ordered: 7").1
      ⟨0, by decide, by decide⟩
    obtain ⟨g, hg⟩ := h
    rw [hg]
    have : confirmSearch ("user: jdoe, order session ID: 12345 number of files ordered: 7").data
        = some ("jdoe", "12345", "7") := by decide
    unfold order_files at hg
    rw [this] at hg
    simp only [Prod.mk.injEq, Sum.inl.injEq] at hg
    rw [hg.2]
  · refine (c3_order_files_confirmation "Error: quota exceeded").2 ?_
    intro hm
    have h : (confirmSearch ("Error: quota exceeded").data).isSome = true :=
      (confirmSearch_isSome_iff _).mpr hm
    have : confirmSearch ("Error: quota exceeded").data = none := by decide
    rw [this] at h
    simp at h

/-! ## Theorems: string-encoded booleans (C6) -/

/-- C6: `valid_user` and `order_clear` turn the wire reply into `true`
exactly on the literal string `"true"` (case-sensitive exact match) and
into `false` on every other string. -/
theorem c6_wire_reply_true_exact (reply : String) :
    (valid_user reply = true ↔ reply = "true") ∧
    (order_clear reply = true ↔ reply = "true") := by
  unfold valid_user order_clear
  by_cases h : reply = "true" <;> simp [h]

/-! ## Theorems: filtering with no pattern (C8) -/

/-- C8: `_regex_filter` with `pattern = None` returns the sequence
unchanged: same elements, same order. -/
theorem c8_regex_filter_none_identity (search : String → String → Bool)
    (items : List String) : regex_filter search items none = items := rfl

/-! ## Theorems: the calendar of CPython's datetime -/

theorem isLeap_iff (y : Nat) :
    isLeap y = true ↔ (y % 4 = 0 ∧ ¬ y % 100 = 0) ∨ y % 400 = 0 := by
  simp [isLeap, Bool.or_eq_true, Bool.and_eq_true, beq_iff_eq, bne_iff_ne]

theorem checkMonthPartDays_sound (L : Bool) (m : Nat) :
    ∀ dmax, checkMonthPartDays L m dmax = true →
      ∀ d, 1 ≤ d → d ≤ dmax → checkMonthPartOne L m d = true := by
  intro dmax
  induction dmax with
  | zero => intro _ d h1 h2; omega
  | succ k ih =>
    intro h d h1 h2
    simp only [checkMonthPartDays, Bool.and_eq_true] at h
    by_cases hd : d = k + 1
    · subst hd; exact h.1
    · exact ih h.2 d h1 (by omega)

theorem checkMonthPartMonths_sound (L : Bool) :
    ∀ mmax, checkMonthPartMonths L mmax = true →
      ∀ m d, 1 ≤ m → m ≤ mmax → 1 ≤ d → d ≤ daysInMonthFlag L m →
        checkMonthPartOne L m d = true := by
  intro mmax
  induction mmax with
  | zero => intro _ m d h1 h2; omega
  | succ k ih =>
    intro h m d h1 h2 h3 h4
    simp only [checkMonthPartMonths, Bool.and_eq_true] at h
    by_cases hm : m = k + 1
    · subst hm; exact checkMonthPartDays_sound L (k + 1) _ h.1 d h3 h4
    · exact ih h.2 m d h1 (by omega) h3 h4

set_option maxRecDepth 10000 in
set_option maxHeartbeats 2000000 in
theorem checkMonthPart_eq_true : checkMonthPart = true := by decide

theorem monthPart_correct (L : Bool) (m d : Nat) (hm1 : 1 ≤ m) (hm2 : m ≤ 12)
    (hd1 : 1 ≤ d) (hd2 : d ≤ daysInMonthFlag L m) :
    monthPart L (daysBeforeMonthFlag L m + d - 1) = (m, d) := by
  have hc := checkMonthPart_eq_true
  simp only [checkMonthPart, Bool.and_eq_true] at hc
  have hone : checkMonthPartOne L m d = true := by
    cases L
    · exact checkMonthPartMonths_sound false 12 hc.1 m d hm1 hm2 hd1 hd2
    · exact checkMonthPartMonths_sound true 12 hc.2 m d hm1 hm2 hd1 hd2
  unfold checkMonthPartOne at hone
  exact eq_of_beq hone

theorem doy_facts (L : Bool) (m d : Nat) (hm1 : 1 ≤ m) (hm2 : m ≤ 12)
    (hd1 : 1 ≤ d) (hd2 : d ≤ daysInMonthFlag L m) :
    daysBeforeMonthFlag L m + d - 1 ≤ 365 ∧
    (daysBeforeMonthFlag L m + d - 1 = 365 → L = true ∧ m = 12 ∧ d = 31) ∧
    (L = true ∧ m = 12 ∧ d = 31 → daysBeforeMonthFlag L m + d - 1 = 365) := by
  interval_cases m <;> cases L <;>
    simp_all [daysBeforeMonthFlag, daysInMonthFlag, daysBeforeMonthTable,
      daysInMonthTable] <;> omega

theorem daysBeforeYear_decomp (y c a b : Nat) (h : y - 1 = 100 * c + 4 * a + b)
    (hy : 1 ≤ y) (hcb : c ≤ 3) (hab : a ≤ 24) (hbb : b ≤ 3) :
    daysBeforeYear y = 36524 * c + 1461 * a + 365 * b := by
  unfold daysBeforeYear; omega

theorem isLeap_decomp (y c a b : Nat) (h : y - 1 = 100 * c + 4 * a + b)
    (hy : 1 ≤ y) (hcb : c ≤ 3) (hab : a ≤ 24) (hbb : b ≤ 3) :
    isLeap y = ((b == 3) && (a != 24 || c == 3)) := by
  rw [Bool.eq_iff_iff, isLeap_iff]
  simp only [Bool.and_eq_true, Bool.or_eq_true, beq_iff_eq, bne_iff_ne, ne_eq]
  omega

theorem ord2ymdInCycle_leapDec31 (c a : Nat) (ha : a ≤ 23) :
    ord2ymdInCycle (36524 * c + 1461 * a + 1460) = (100 * c + 4 * a + 4, 12, 31) := by
  have s1 : (36524 * c + 1461 * a + 1460) / 36524 = c := by omega
  have s2 : (36524 * c + 1461 * a + 1460) % 36524 = 1461 * a + 1460 := by omega
  have s3 : (1461 * a + 1460) / 1461 = a := by omega
  have s4 : (1461 * a + 1460) % 1461 = 1460 := by omega
  simp only [ord2ymdInCycle]
  rw [s1, s2, s3, s4]
  norm_num

theorem ord2ymdInCycle_normal (c a b D : Nat) (hcb : c ≤ 3) (hab : a ≤ 24)
    (hbb : b ≤ 3) (hDb : D ≤ 364) :
    ord2ymdInCycle (36524 * c + 1461 * a + 365 * b + D) =
      (100 * c + 4 * a + b + 1,
        (monthPart ((b == 3) && (a != 24 || c == 3)) D).1,
        (monthPart ((b == 3) && (a != 24 || c == 3)) D).2) := by
  have s1 : (36524 * c + 1461 * a + 365 * b + D) / 36524 = c := by omega
  have s2 : (36524 * c + 1461 * a + 365 * b + D) % 36524 =
      1461 * a + 365 * b + D := by omega
  have s3 : (1461 * a + 365 * b + D) / 1461 = a := by omega
  have s4 : (1461 * a + 365 * b + D) % 1461 = 365 * b + D := by omega
  have s5 : (365 * b + D) / 365 = b := by omega
  have s6 : (365 * b + D) % 365 = D := by omega
  have hcond : ¬ (b = 4 ∨ c = 4) := by omega
  simp only [ord2ymdInCycle]
  rw [s1, s2, s3, s4, s5, s6, if_neg hcond]

theorem ord2ymdInCycle_correct (y m d : Nat) (hv : ValidDate y m d)
    (hy400 : y ≤ 400) :
    ord2ymdInCycle (ymd2ord y m d - 1) = (y, m, d) ∧
    1 ≤ ymd2ord y m d ∧ ymd2ord y m d ≤ 146097 := by
  obtain ⟨hy1, hm1, hm2, hd1, hd2⟩ := hv
  obtain ⟨c, a, b, hdecomp, hcb, hab, hbb⟩ :
      ∃ c a b, y - 1 = 100 * c + 4 * a + b ∧ c ≤ 3 ∧ a ≤ 24 ∧ b ≤ 3 :=
    ⟨(y - 1) / 100, (y - 1) % 100 / 4, (y - 1) % 4,
      by omega, by omega, by omega, by omega⟩
  have hdby := daysBeforeYear_decomp y c a b hdecomp hy1 hcb hab hbb
  have hleapB := isLeap_decomp y c a b hdecomp hy1 hcb hab hbb
  have hd2' : d ≤ daysInMonthFlag ((b == 3) && (a != 24 || c == 3)) m := by
    unfold daysInMonth at hd2; rw [hleapB] at hd2; exact hd2
  obtain ⟨hdf1, hdf2, hdf3⟩ :=
    doy_facts ((b == 3) && (a != 24 || c == 3)) m d hm1 hm2 hd1 hd2'
  have hord : ymd2ord y m d = 36524 * c + 1461 * a + 365 * b +
      (daysBeforeMonthFlag ((b == 3) && (a != 24 || c == 3)) m + d) := by
    unfold ymd2ord daysBeforeMonth
    rw [hleapB, hdby]
    omega
  refine ⟨?_, by omega, by omega⟩
  by_cases hsp : y = 400 ∧ m = 12 ∧ d = 31
  · obtain ⟨h1, h2, h3⟩ := hsp
    subst h1; subst h2; subst h3
    decide
  by_cases hlsp : ((b == 3) && (a != 24 || c == 3)) = true ∧ m = 12 ∧ d = 31
  · obtain ⟨hF, hm12, hd31⟩ := hlsp
    have hD365 := hdf3 ⟨hF, hm12, hd31⟩
    have hprops : b = 3 ∧ (¬ a = 24 ∨ c = 3) := by
      simpa only [Bool.and_eq_true, Bool.or_eq_true, beq_iff_eq, bne_iff_ne,
        ne_eq] using hF
    have ha23 : a ≤ 23 := by
      by_cases ha24 : a = 24
      · exfalso
        have hc3 : c = 3 := by
          rcases hprops.2 with h4 | h4
          · exact absurd ha24 h4
          · exact h4
        exact hsp ⟨by omega, hm12, hd31⟩
      · omega
    have hshape : ymd2ord y m d - 1 = 36524 * c + 1461 * a + 1460 := by omega
    rw [hshape, ord2ymdInCycle_leapDec31 c a ha23]
    simp only [Prod.mk.injEq]
    omega
  · have hD364 : daysBeforeMonthFlag ((b == 3) && (a != 24 || c == 3)) m + d - 1
        ≤ 364 := by
      rcases Nat.lt_or_ge
        (daysBeforeMonthFlag ((b == 3) && (a != 24 || c == 3)) m + d - 1) 365
        with h4 | h4
      · omega
      · exact absurd (hdf2 (by omega)) hlsp
    have hshape : ymd2ord y m d - 1 = 36524 * c + 1461 * a + 365 * b +
        (daysBeforeMonthFlag ((b == 3) && (a != 24 || c == 3)) m + d - 1) := by
      unfold ymd2ord daysBeforeMonth
      rw [hleapB, hdby]
      omega
    rw [hshape, ord2ymdInCycle_normal c a b _ hcb hab hbb hD364]
    have hmp := monthPart_correct ((b == 3) && (a != 24 || c == 3)) m d
      hm1 hm2 hd1 hd2'
    rw [hmp]
    have hyy : 100 * c + 4 * a + b + 1 = y := by omega
    rw [hyy]

theorem ord2ymd_ymd2ord (y m d : Nat) (hv : ValidDate y m d) :
    ord2ymd (ymd2ord y m d) = (y, m, d) := by
  obtain ⟨hy1, hm1, hm2, hd1, hd2⟩ := hv
  obtain ⟨A, B, hAB, hBb⟩ : ∃ A B, y = 400 * A + (B + 1) ∧ B ≤ 399 :=
    ⟨(y - 1) / 400, (y - 1) % 400, by omega, by omega⟩
  have hleapeq : isLeap y = isLeap (B + 1) := by
    have e4 : y % 4 = (B + 1) % 4 := by omega
    have e100 : y % 100 = (B + 1) % 100 := by omega
    have e400 : y % 400 = (B + 1) % 400 := by omega
    unfold isLeap
    rw [e4, e100, e400]
  have hdim : daysInMonth y m = daysInMonth (B + 1) m := by
    unfold daysInMonth; rw [hleapeq]
  have hdbm : daysBeforeMonth y m = daysBeforeMonth (B + 1) m := by
    unfold daysBeforeMonth; rw [hleapeq]
  have hdby : daysBeforeYear y = 146097 * A + daysBeforeYear (B + 1) := by
    unfold daysBeforeYear; omega
  have hvB : ValidDate (B + 1) m d :=
    ⟨by omega, hm1, hm2, hd1, by rw [← hdim]; exact hd2⟩
  obtain ⟨hcyc, hK1, hK2⟩ := ord2ymdInCycle_correct (B + 1) m d hvB (by omega)
  have hord : ymd2ord y m d = 146097 * A + ymd2ord (B + 1) m d := by
    unfold ymd2ord
    rw [hdby, hdbm]
    omega
  have hdiv : (ymd2ord y m d - 1) / 146097 = A := by omega
  have hmod : (ymd2ord y m d - 1) % 146097 = ymd2ord (B + 1) m d - 1 := by omega
  simp only [ord2ymd]
  rw [hdiv, hmod, hcyc]
  show (400 * A + (B + 1), m, d) = (y, m, d)
  have hyy : 400 * A + (B + 1) = y := by omega
  rw [hyy]

theorem daysBeforeMonthFlag_succ (L : Bool) (m : Nat) (h1 : 1 ≤ m)
    (h2 : m ≤ 11) :
    daysBeforeMonthFlag L (m + 1) =
      daysBeforeMonthFlag L m + daysInMonthFlag L m := by
  have hdec : ∀ mm, mm < 12 → 1 ≤ mm →
      (daysBeforeMonthFlag false (mm + 1) =
        daysBeforeMonthFlag false mm + daysInMonthFlag false mm) ∧
      (daysBeforeMonthFlag true (mm + 1) =
        daysBeforeMonthFlag true mm + daysInMonthFlag true mm) := by decide
  cases L
  · exact (hdec m (by omega) h1).1
  · exact (hdec m (by omega) h1).2

set_option maxHeartbeats 1600000 in
theorem daysBeforeYear_succ (y : Nat) (hy : 1 ≤ y) :
    daysBeforeYear (y + 1) =
      daysBeforeYear y + 365 + (if isLeap y = true then 1 else 0) := by
  by_cases hL : isLeap y = true
  · rw [if_pos hL]; rw [isLeap_iff] at hL
    unfold daysBeforeYear; omega
  · rw [if_neg hL]
    have hL2 : ¬ ((y % 4 = 0 ∧ ¬ y % 100 = 0) ∨ y % 400 = 0) := fun hcon =>
      hL ((isLeap_iff y).mpr hcon)
    clear hL
    unfold daysBeforeYear; omega

theorem ymd2ordT_nextCalendarDay (y m d : Nat) (hv : ValidDate y m d) :
    ymd2ordT (nextCalendarDay (y, m, d)) = ymd2ord y m d + 1 := by
  obtain ⟨hy1, hm1, hm2, hd1, hd2⟩ := hv
  simp only [nextCalendarDay]
  by_cases h1 : d < daysInMonth y m
  · rw [if_pos h1]
    show ymd2ord y m (d + 1) = ymd2ord y m d + 1
    unfold ymd2ord; omega
  · rw [if_neg h1]
    have hdd : d = daysInMonth y m := by omega
    by_cases h2 : m < 12
    · rw [if_pos h2]
      show ymd2ord y (m + 1) 1 = ymd2ord y m d + 1
      have hsucc := daysBeforeMonthFlag_succ (isLeap y) m hm1 (by omega)
      unfold ymd2ord daysBeforeMonth
      rw [hsucc]
      unfold daysInMonth at hdd
      omega
    · rw [if_neg h2]
      have hm12 : m = 12 := by omega
      subst hm12
      show ymd2ord (y + 1) 1 1 = ymd2ord y 12 d + 1
      have hd31 : d = 31 := by
        have : daysInMonth y 12 = 31 := by
          unfold daysInMonth daysInMonthFlag
          norm_num [daysInMonthTable]
        omega
      subst hd31
      have hsucc := daysBeforeYear_succ y hy1
      have e1 : daysBeforeMonth (y + 1) 1 = 0 := by
        unfold daysBeforeMonth daysBeforeMonthFlag daysBeforeMonthTable
        simp
      have e2 : daysBeforeMonth y 12 = 334 + (if isLeap y = true then 1 else 0) := by
        unfold daysBeforeMonth daysBeforeMonthFlag daysBeforeMonthTable
        simp
      unfold ymd2ord
      rw [e1, e2, hsucc]
      generalize (if isLeap y = true then 1 else 0) = lf
      omega

theorem nextCalendarDay_valid (y m d : Nat) (hv : ValidDate y m d) :
    ValidDate (nextCalendarDay (y, m, d)).1 (nextCalendarDay (y, m, d)).2.1
      (nextCalendarDay (y, m, d)).2.2 := by
  obtain ⟨hy1, hm1, hm2, hd1, hd2⟩ := hv
  simp only [nextCalendarDay]
  by_cases h1 : d < daysInMonth y m
  · rw [if_pos h1]
    show ValidDate y m (d + 1)
    exact ⟨hy1, hm1, hm2, by omega, by omega⟩
  · rw [if_neg h1]
    by_cases h2 : m < 12
    · rw [if_pos h2]
      show ValidDate y (m + 1) 1
      refine ⟨hy1, by omega, by omega, by omega, ?_⟩
      have : 1 ≤ daysInMonthFlag (isLeap y) (m + 1) := by
        have hdec : ∀ mm, mm < 13 → 1 ≤ mm →
            1 ≤ daysInMonthFlag false mm ∧ 1 ≤ daysInMonthFlag true mm := by
          decide
        cases hLc : isLeap y
        · exact (hdec (m + 1) (by omega) (by omega)).1
        · exact (hdec (m + 1) (by omega) (by omega)).2
      unfold daysInMonth
      omega
    · rw [if_neg h2]
      show ValidDate (y + 1) 1 1
      refine ⟨by omega, by omega, by omega, by omega, ?_⟩
      have : daysInMonth (y + 1) 1 = 31 := by
        unfold daysInMonth daysInMonthFlag
        norm_num [daysInMonthTable]
      omega

theorem daysBeforeYear_mono (x1 x2 : Nat) (h : x1 ≤ x2) :
    daysBeforeYear x1 ≤ daysBeforeYear x2 := by
  induction x2, h using Nat.le_induction with
  | base => exact Nat.le_refl _
  | succ k hk ih =>
    by_cases hk1 : 1 ≤ k
    · have := daysBeforeYear_succ k hk1
      omega
    · have hk0 : k = 0 := by omega
      subst hk0
      have hx0 : x1 = 0 := by omega
      subst hx0
      decide

theorem dbm_d_le (L : Bool) (m d : Nat) (hm1 : 1 ≤ m) (hm2 : m ≤ 12)
    (hd1 : 1 ≤ d) (hd2 : d ≤ daysInMonthFlag L m) :
    daysBeforeMonthFlag L m + d ≤ 365 + (if L = true then 1 else 0) := by
  obtain ⟨hdf1, hdf2, _⟩ := doy_facts L m d hm1 hm2 hd1 hd2
  cases L
  · have hne365 : ¬ (daysBeforeMonthFlag false m + d - 1 = 365) := fun hcon => by
      obtain ⟨hfalse, -, -⟩ := hdf2 hcon
      simp at hfalse
    norm_num
    omega
  · norm_num
    omega

theorem ymd2ord_le_max (y m d : Nat) (hv : ValidDate y m d) (hy : y ≤ 9999) :
    ymd2ord y m d ≤ 3652059 := by
  obtain ⟨hy1, hm1, hm2, hd1, hd2⟩ := hv
  have hd2' : d ≤ daysInMonthFlag (isLeap y) m := hd2
  have hb := dbm_d_le (isLeap y) m d hm1 hm2 hd1 hd2'
  have hsucc := daysBeforeYear_succ y hy1
  have hmono := daysBeforeYear_mono (y + 1) 10000 (by omega)
  have h10000 : daysBeforeYear 10000 = 3652059 := by decide
  unfold ymd2ord daysBeforeMonth
  generalize (if isLeap y = true then 1 else 0) = lf at hb hsucc
  omega

theorem ord2ymd_ymd2ordT (p : Nat × Nat × Nat)
    (hv : ValidDate p.1 p.2.1 p.2.2) : ord2ymd (ymd2ordT p) = p := by
  obtain ⟨a, b, c⟩ := p
  exact ord2ymd_ymd2ord a b c hv

theorem strptimeYmd_valid (s : String) (y m d : Nat)
    (h : strptimeYmd s = some (y, m, d)) :
    ValidDate y m d ∧ y ≤ 9999 := by
  cases hY : matchYear s.data with
  | none => simp [strptimeYmd, hY] at h
  | some yr =>
    obtain ⟨yv, rest⟩ := yr
    cases hMD : matchMonthDay (monthAlts rest) with
    | none => simp [strptimeYmd, hY, hMD] at h
    | some md =>
      obtain ⟨mv, dv, rest2⟩ := md
      simp only [strptimeYmd, hY, hMD] at h
      split at h
      · rename_i hcond
        simp only [Option.some.injEq, Prod.mk.injEq] at h
        obtain ⟨h1, h2, h3⟩ := h
        subst h1; subst h2; subst h3
        exact ⟨⟨hcond.2.1, hcond.2.2.2.1, hcond.2.2.2.2.1, hcond.2.2.2.2.2.1,
          hcond.2.2.2.2.2.2⟩, hcond.2.2.1⟩
      · simp at h

theorem defaultEnddate_ok (s : String) (y m d : Nat)
    (h : strptimeYmd s = some (y, m, d))
    (hne : ¬ (y = 9999 ∧ m = 12 ∧ d = 31))
    (h19 : 1900 ≤ (nextCalendarDay (y, m, d)).1) :
    defaultEnddate s = Except.ok (formatYmd (nextCalendarDay (y, m, d))) := by
  obtain ⟨hv, hy9⟩ := strptimeYmd_valid s y m d h
  have hle := ymd2ord_le_max y m d hv hy9
  have hstrict : ymd2ord y m d ≠ 3652059 := by
    intro heq
    have hrt := ord2ymd_ymd2ord y m d hv
    rw [heq] at hrt
    have h2 : ord2ymd 3652059 = (9999, 12, 31) := by decide
    rw [h2] at hrt
    simp only [Prod.mk.injEq] at hrt
    exact hne ⟨hrt.1.symm, hrt.2.1.symm, hrt.2.2.symm⟩
  unfold defaultEnddate
  rw [h]
  simp only [maxOrdinal]
  rw [if_pos (by omega)]
  have h1 : ymd2ord y m d + 1 = ymd2ordT (nextCalendarDay (y, m, d)) :=
    (ymd2ordT_nextCalendarDay y m d hv).symm
  show (if (ord2ymd (ymd2ord y m d + 1)).1 < 1900 then
      (Except.error "ValueError" : Except String String)
    else Except.ok (formatYmd (ord2ymd (ymd2ord y m d + 1)))) = _
  rw [h1, ord2ymd_ymd2ordT _ (nextCalendarDay_valid y m d hv)]
  rw [if_neg (by omega)]

/-! ## Theorems: the FTP operations and `list_files` -/

theorem retrLoop_no_quit (remote : FTPRemote) : ∀ (files : List String)
    (trace : List FTPCmd) (fs : LocalFS), FTPCmd.quit ∉ trace →
    FTPCmd.quit ∉ (retrLoop remote files trace fs).1 := by
  intro files
  induction files with
  | nil => intro trace fs h; exact h
  | cons f rest ih =>
    intro trace fs h
    simp only [retrLoop]
    cases hr : remote.retrData f with
    | some bytes =>
      exact ih (trace ++ [FTPCmd.retr f]) (fsWrite fs f bytes) (by simp [h])
    | none => simp [h]

theorem retrLoop_success (remote : FTPRemote) : ∀ (files : List String)
    (trace : List FTPCmd) (fs : LocalFS),
    (∀ f ∈ files, (remote.retrData f).isSome = true) →
    (retrLoop remote files trace fs).1 = trace ++ files.map FTPCmd.retr ∧
    (retrLoop remote files trace fs).2.2 = true := by
  intro files
  induction files with
  | nil => intro trace fs _; simp [retrLoop]
  | cons f rest ih =>
    intro trace fs hall
    simp only [retrLoop]
    cases hr : remote.retrData f with
    | some bytes =>
      have := ih (trace ++ [FTPCmd.retr f]) (fsWrite fs f bytes)
        (fun g hg => hall g (List.mem_cons_of_mem f hg))
      simpa using this
    | none =>
      have := hall f (List.mem_cons_self f rest)
      rw [hr] at this
      simp at this

theorem retrLoop_fs (remote : FTPRemote) : ∀ (files : List String)
    (trace : List FTPCmd) (fs : LocalFS),
    (∀ f ∈ files, (remote.retrData f).isSome = true) →
    ∀ n, (retrLoop remote files trace fs).2.1 n =
      if n ∈ files then remote.retrData n else fs n := by
  intro files
  induction files with
  | nil => intro trace fs _ n; simp [retrLoop]
  | cons f rest ih =>
    intro trace fs hall n
    simp only [retrLoop]
    cases hr : remote.retrData f with
    | some bytes =>
      rw [ih (trace ++ [FTPCmd.retr f]) (fsWrite fs f bytes)
        (fun g hg => hall g (List.mem_cons_of_mem f hg)) n]
      by_cases hn : n ∈ rest
      · rw [if_pos hn, if_pos (List.mem_cons_of_mem f hn)]
      · rw [if_neg hn]
        unfold fsWrite
        by_cases hnf : n = f
        · subst hnf
          rw [if_pos rfl, if_pos (List.mem_cons_self n rest), hr]
        · rw [if_neg hnf, if_neg (by simp [hnf, hn])]
    | none =>
      have := hall f (List.mem_cons_self f rest)
      rw [hr] at this
      simp at this

theorem retrNames_map_retr : ∀ l : List String,
    retrNames (l.map FTPCmd.retr) = l := by
  intro l
  induction l with
  | nil => rfl
  | cons x xs ih => simp only [List.map_cons, retrNames, List.filterMap_cons]; simpa [retrNames] using ih

theorem retrNames_append (a b : List FTPCmd) :
    retrNames (a ++ b) = retrNames a ++ retrNames b := by
  simp [retrNames]

/-- C7 draft -/
theorem c7_order_download_file_selection (remote : FTPRemote) (user oid : String) (fs0 : LocalFS)
    (hl : remote.loginOk = true) (hu : remote.cwdOk user = true)
    (ho : remote.cwdOk oid = true) :
    ((∀ f ∈ remote.listing, (remote.retrData f).isSome = true) →
      retrNames (order_download remote user oid none fs0).trace =
        remote.listing) ∧
    (∀ one, (remote.retrData one).isSome = true →
      retrNames (order_download remote user oid (some (Sum.inl one)) fs0).trace
        = [one]) ∧
    (∀ many, (∀ f ∈ many, (remote.retrData f).isSome = true) →
      retrNames (order_download remote user oid (some (Sum.inr many)) fs0).trace
        = many) := by
  refine ⟨?_, ?_, ?_⟩
  · intro hall
    obtain ⟨ht, hok⟩ := retrLoop_success remote remote.listing
      [FTPCmd.login, FTPCmd.cwd user, FTPCmd.cwd oid, FTPCmd.nlst] fs0 hall
    simp only [order_download, hl, hu, ho]
    norm_num
    rcases hres : retrLoop remote remote.listing
        [FTPCmd.login, FTPCmd.cwd user, FTPCmd.cwd oid, FTPCmd.nlst] fs0
      with ⟨t, fs, okb⟩
    rw [hres] at ht hok
    simp only at ht hok
    subst hok
    show retrNames (t ++ [FTPCmd.quit]) = remote.listing
    rw [ht, retrNames_append, retrNames_append, retrNames_map_retr]
    simp [retrNames]
  · intro one hone
    obtain ⟨ht, hok⟩ := retrLoop_success remote [one]
      [FTPCmd.login, FTPCmd.cwd user, FTPCmd.cwd oid] fs0 (by simpa using hone)
    simp only [order_download, hl, hu, ho]
    norm_num
    rcases hres : retrLoop remote [one]
        [FTPCmd.login, FTPCmd.cwd user, FTPCmd.cwd oid] fs0
      with ⟨t, fs, okb⟩
    rw [hres] at ht hok
    simp only at ht hok
    subst hok
    show retrNames (t ++ [FTPCmd.quit]) = [one]
    rw [ht, retrNames_append, retrNames_append, retrNames_map_retr]
    simp [retrNames]
  · intro many hall
    obtain ⟨ht, hok⟩ := retrLoop_success remote many
      [FTPCmd.login, FTPCmd.cwd user, FTPCmd.cwd oid] fs0 hall
    simp only [order_download, hl, hu, ho]
    norm_num
    rcases hres : retrLoop remote many
        [FTPCmd.login, FTPCmd.cwd user, FTPCmd.cwd oid] fs0
      with ⟨t, fs, okb⟩
    rw [hres] at ht hok
    simp only at ht hok
    subst hok
    show retrNames (t ++ [FTPCmd.quit]) = many
    rw [ht, retrNames_append, retrNames_append, retrNames_map_retr]
    simp [retrNames]

theorem list_order_files_no_quit (remote : FTPRemote) (user oid : String) :
    FTPCmd.quit ∉ (list_order_files remote user oid).trace := by
  unfold list_order_files
  by_cases h1 : remote.loginOk = false
  · rw [if_pos h1]; simp
  · rw [if_neg h1]
    by_cases h2 : remote.cwdOk user = false
    · rw [if_pos h2]; simp
    · rw [if_neg h2]
      by_cases h4 : remote.cwdOk oid = false
      · rw [if_pos h4]; simp
      · rw [if_neg h4]; simp

theorem order_download_quit_cases (remote : FTPRemote) (user oid : String)
    (files : Option (String ⊕ List String)) (fs0 : LocalFS) :
    ((order_download remote user oid files fs0).ok = true →
      (order_download remote user oid files fs0).trace.getLast? =
        some FTPCmd.quit) ∧
    ((order_download remote user oid files fs0).ok = false →
      FTPCmd.quit ∉ (order_download remote user oid files fs0).trace) := by
  unfold order_download
  by_cases h1 : remote.loginOk = false
  · rw [if_pos h1]
    exact ⟨fun h => by simp at h, fun _ => by simp⟩
  · rw [if_neg h1]
    by_cases h2 : remote.cwdOk user = false
    · rw [if_pos h2]
      exact ⟨fun h => by simp at h, fun _ => by simp⟩
    · rw [if_neg h2]
      by_cases h4 : remote.cwdOk oid = false
      · rw [if_pos h4]
        exact ⟨fun h => by simp at h, fun _ => by simp⟩
      · rw [if_neg h4]
        simp only []
        rcases files with - | one | many
        · simp only []
          rcases hres : retrLoop remote remote.listing
              ([FTPCmd.login, FTPCmd.cwd user, FTPCmd.cwd oid] ++ [FTPCmd.nlst])
              fs0
            with ⟨t, fs, okb⟩
          have hnq : FTPCmd.quit ∉ t := by
            have hq := retrLoop_no_quit remote remote.listing
              ([FTPCmd.login, FTPCmd.cwd user, FTPCmd.cwd oid] ++ [FTPCmd.nlst])
              fs0 (by simp)
            rw [hres] at hq; exact hq
          cases okb
          · exact ⟨fun h => by simp at h, fun _ => hnq⟩
          · refine ⟨fun _ => ?_, fun h => by simp at h⟩
            show (t ++ [FTPCmd.quit]).getLast? = some FTPCmd.quit
            rw [List.getLast?_concat]
        · simp only []
          rcases hres : retrLoop remote [one]
              [FTPCmd.login, FTPCmd.cwd user, FTPCmd.cwd oid] fs0
            with ⟨t, fs, okb⟩
          have hnq : FTPCmd.quit ∉ t := by
            have hq := retrLoop_no_quit remote [one]
              [FTPCmd.login, FTPCmd.cwd user, FTPCmd.cwd oid] fs0 (by simp)
            rw [hres] at hq; exact hq
          cases okb
          · exact ⟨fun h => by simp at h, fun _ => hnq⟩
          · refine ⟨fun _ => ?_, fun h => by simp at h⟩
            show (t ++ [FTPCmd.quit]).getLast? = some FTPCmd.quit
            rw [List.getLast?_concat]
        · simp only []
          rcases hres : retrLoop remote many
              [FTPCmd.login, FTPCmd.cwd user, FTPCmd.cwd oid] fs0
            with ⟨t, fs, okb⟩
          have hnq : FTPCmd.quit ∉ t := by
            have hq := retrLoop_no_quit remote many
              [FTPCmd.login, FTPCmd.cwd user, FTPCmd.cwd oid] fs0 (by simp)
            rw [hres] at hq; exact hq
          cases okb
          · exact ⟨fun h => by simp at h, fun _ => hnq⟩
          · refine ⟨fun _ => ?_, fun h => by simp at h⟩
            show (t ++ [FTPCmd.quit]).getLast? = some FTPCmd.quit
            rw [List.getLast?_concat]

theorem c10_overwrite_local_file (remote : FTPRemote) (user oid : String)
    (l : List String) (fs0 : LocalFS) (name : String) (old : List Nat)
    (hl : remote.loginOk = true) (hu : remote.cwdOk user = true)
    (ho : remote.cwdOk oid = true)
    (hall : ∀ f ∈ l, (remote.retrData f).isSome = true)
    (hmem : name ∈ l) (hold : fs0 name = some old) :
    (order_download remote user oid (some (Sum.inr l)) fs0).ok = true ∧
    (order_download remote user oid (some (Sum.inr l)) fs0).fs name =
      remote.retrData name ∧
    (∀ n, n ∉ l →
      (order_download remote user oid (some (Sum.inr l)) fs0).fs n = fs0 n) := by
  obtain ⟨ht, hok⟩ := retrLoop_success remote l
    [FTPCmd.login, FTPCmd.cwd user, FTPCmd.cwd oid] fs0 hall
  have hfs := retrLoop_fs remote l
    [FTPCmd.login, FTPCmd.cwd user, FTPCmd.cwd oid] fs0 hall
  simp only [order_download, hl, hu, ho]
  norm_num
  rcases hres : retrLoop remote l
      [FTPCmd.login, FTPCmd.cwd user, FTPCmd.cwd oid] fs0 with ⟨t, fs, okb⟩
  rw [hres] at ht hok hfs
  simp only at ht hok hfs
  subst hok
  refine ⟨rfl, ?_, ?_⟩
  · show fs name = remote.retrData name
    rw [hfs name, if_pos hmem]
  · intro n hn
    show fs n = fs0 n
    rw [hfs n, if_neg hn]

theorem sentinel_guard_iff (files : List String) :
    (files.length = 1 ∧ files.getD 0 "" = "No data files found") ↔
      files = ["No data files found"] := by
  constructor
  · rintro ⟨h1, h2⟩
    cases files with
    | nil => simp at h1
    | cons x xs =>
      cases xs with
      | nil => simp only [List.getD_cons_zero] at h2; rw [h2]
      | cons y ys => simp at h1
  · rintro rfl; exact ⟨rfl, rfl⟩

theorem list_files_sentinel_cases (search : String → String → Bool) (ds : String ⊕ List String)
    (s e : String) (pattern : Option String) (reply : List String) :
    (reply = ["No data files found"] →
      (list_files search (fun _ _ _ => reply) ds s (some e) pattern).result =
        Except.ok []) ∧
    (reply ≠ ["No data files found"] →
      (list_files search (fun _ _ _ => reply) ds s (some e) pattern).result =
        Except.ok (pySorted (regex_filter search reply pattern))) := by
  constructor
  · intro hrep
    simp only [list_files]
    rw [if_pos ((sentinel_guard_iff reply).mpr hrep)]
  · intro hrep
    simp only [list_files]
    rw [if_neg (fun hcon => hrep ((sentinel_guard_iff reply).mp hcon))]

/-- C2: for every reply and pattern, `list_datastreams` and `list_files`
return lists sorted ascending in Python's lexicographic string order,
whose entries are exactly those of the (sentinel-normalized, for
`list_files`) reply on which the pattern's regex search succeeds — with
no pattern, exactly the reply's entries — regardless of the reply's
original order (stated as a permutation of the corresponding filter). -/
theorem c2_listings_sorted_and_filtered (search : String → String → Bool) (reply : List String)
    (pattern : Option String) (ds : String ⊕ List String) (s e : String) :
    (list_datastreams search reply pattern).Pairwise
      (fun a b => pyStrLe a b = true) ∧
    (∀ p, pattern = some p →
      (list_datastreams search reply pattern).Perm
        (reply.filter (fun x => search p x))) ∧
    (pattern = none → (list_datastreams search reply pattern).Perm reply) ∧
    (∀ out,
      (list_files search (fun _ _ _ => reply) ds s (some e) pattern).result =
        Except.ok out →
      out.Pairwise (fun a b => pyStrLe a b = true) ∧
      (∀ p, pattern = some p →
        out.Perm ((if reply = ["No data files found"] then [] else
          reply).filter (fun x => search p x))) ∧
      (pattern = none →
        out.Perm (if reply = ["No data files found"] then [] else reply))) := by
  refine ⟨pySorted_pairwise _, ?_, ?_, ?_⟩
  · intro p hp
    subst hp
    exact pySorted_perm _
  · intro hp
    subst hp
    exact pySorted_perm _
  · intro out hout
    by_cases hrep : reply = ["No data files found"]
    · have h5 := (list_files_sentinel_cases search ds s e pattern reply).1 hrep
      rw [h5] at hout
      simp only [Except.ok.injEq] at hout
      subst hout
      rw [if_pos hrep]
      exact ⟨List.Pairwise.nil, fun p _ => by simp, fun _ => by simp⟩
    · have h5 := (list_files_sentinel_cases search ds s e pattern reply).2 hrep
      rw [h5] at hout
      simp only [Except.ok.injEq] at hout
      subst hout
      rw [if_neg hrep]
      refine ⟨pySorted_pairwise _, ?_, ?_⟩
      · intro p hp
        subst hp
        exact pySorted_perm _
      · intro hp
        subst hp
        exact pySorted_perm _

/-- C9 (amended): `list_files` validates the start date only when the
end date is omitted: with `enddate = None`, a start date that `strptime`
cannot parse raises `ValueError` before the `getFiles` query is issued
(but `strptime` accepts some strings not in `YYYYMMDD` form, see the
counterexample); with an end date supplied, both date strings reach the
query verbatim, with no validation of either. -/
theorem c9_validation_only_when_end_omitted_amended (search : String → String → Bool)
    (getF : (String ⊕ List String) → String → String → List String)
    (ds : String ⊕ List String) (s e : String) (pattern : Option String) :
    (strptimeYmd s = none →
      (list_files search getF ds s none pattern).query = none ∧
      (list_files search getF ds s none pattern).result =
        Except.error "ValueError") ∧
    (list_files search getF ds s (some e) pattern).query = some (ds, s, e) := by
  constructor
  · intro hp
    have hd : defaultEnddate s = Except.error "ValueError" := by
      unfold defaultEnddate; rw [hp]
    simp only [list_files]
    rw [hd]
    exact ⟨rfl, rfl⟩
  · simp only [list_files]
    by_cases hg : (getF ds s e).length = 1 ∧
        (getF ds s e).getD 0 "" = "No data files found"
    · rw [if_pos hg]
    · rw [if_neg hg]

/-! ## The claim theorems, their witnesses and counterexamples -/

/-- C5: the sentinel normalization of `list_files` triggers exactly on
the one-element reply `["No data files found"]`, which becomes the empty
list; every other reply — a two-element list starting with the sentinel
text included — is passed unchanged into filtering and sorting. -/
theorem c5_sentinel_exact_singleton (search : String → String → Bool)
    (ds : String ⊕ List String) (s e : String) (pattern : Option String)
    (reply : List String) :
    (reply = ["No data files found"] →
      (list_files search (fun _ _ _ => reply) ds s (some e) pattern).result =
        Except.ok []) ∧
    (reply ≠ ["No data files found"] →
      (list_files search (fun _ _ _ => reply) ds s (some e) pattern).result =
        Except.ok (pySorted (regex_filter search reply pattern))) :=
  list_files_sentinel_cases search ds s e pattern reply

/-- A two-element reply whose first element is the sentinel text passes
through unchanged (derived through `c5_sentinel_exact_singleton` at a
concrete reply). -/
theorem c5_sentinel_exact_singleton_witness :
    (list_files anySearch
      (fun _ _ _ => ["No data files found", "x.nc"]) oneDS "s" (some "e")
      none).result = Except.ok ["No data files found", "x.nc"] := by
  have h := (c5_sentinel_exact_singleton anySearch oneDS "s" "e" none
    ["No data files found", "x.nc"]).2 (by decide)
  rw [h]
  simp only [Except.ok.injEq]
  decide

/-- C1 (amended): `order_download` issues `QUIT` as its last command
exactly on the all-transfers-succeed path; when an exception escapes
(`ok = false`) no `QUIT` was ever issued, and `list_order_files` never
issues `QUIT` on any path. -/
theorem c1_sessions_amended (remote : FTPRemote) (user oid : String)
    (files : Option (String ⊕ List String)) (fs0 : LocalFS) :
    ((order_download remote user oid files fs0).ok = true →
      (order_download remote user oid files fs0).trace.getLast? =
        some FTPCmd.quit) ∧
    ((order_download remote user oid files fs0).ok = false →
      FTPCmd.quit ∉ (order_download remote user oid files fs0).trace) ∧
    FTPCmd.quit ∉ (list_order_files remote user oid).trace :=
  ⟨(order_download_quit_cases remote user oid files fs0).1,
   (order_download_quit_cases remote user oid files fs0).2,
   list_order_files_no_quit remote user oid⟩

/-- C1 is false as stated: on a remote where the transfer of `f2.nc`
fails after `f1.nc` succeeded, `order_download` raises without a `QUIT`,
and `list_order_files` completes successfully without a `QUIT` either. -/
theorem c1_not_always_closed_counterexample :
    (order_download demoRemote "jdoe" "12345" none emptyFS).ok = false ∧
    FTPCmd.quit ∉ (order_download demoRemote "jdoe" "12345" none emptyFS).trace ∧
    (list_order_files demoRemote "jdoe" "12345").result =
      some ["f1.nc", "f2.nc"] ∧
    FTPCmd.quit ∉ (list_order_files demoRemote "jdoe" "12345").trace := by
  decide

/-- C7: `order_download` retrieves exactly the requested files, in order:
with `files = None` the entries of the remote directory listing in the
listing's order, with a single string a one-element list, and with a list
exactly that list. -/
theorem c7_order_download_files_claim (remote : FTPRemote)
    (user oid : String) (fs0 : LocalFS)
    (hl : remote.loginOk = true) (hu : remote.cwdOk user = true)
    (ho : remote.cwdOk oid = true) :
    ((∀ f ∈ remote.listing, (remote.retrData f).isSome = true) →
      retrNames (order_download remote user oid none fs0).trace =
        remote.listing) ∧
    (∀ one, (remote.retrData one).isSome = true →
      retrNames (order_download remote user oid (some (Sum.inl one)) fs0).trace
        = [one]) ∧
    (∀ many, (∀ f ∈ many, (remote.retrData f).isSome = true) →
      retrNames (order_download remote user oid (some (Sum.inr many)) fs0).trace
        = many) :=
  c7_order_download_file_selection remote user oid fs0 hl hu ho

/-- C7 at a concrete remote whose order directory lists
`["f1.nc", "f2.nc"]`: exactly those two names are retrieved, in that
order. -/
theorem c7_order_download_files_claim_witness :
    retrNames (order_download okRemote "jdoe" "12345" none emptyFS).trace =
      ["f1.nc", "f2.nc"] := by
  have h := (c7_order_download_files_claim okRemote "jdoe" "12345" emptyFS
    rfl rfl rfl).1 (by decide)
  exact h

/-- C10: `order_download` writes each retrieved file under its remote
name in the working directory in write-binary mode: a pre-existing local
file of the same name ends up holding the remote bytes (silently
overwritten, no conflict reported — the call still succeeds), and files
not in the batch are untouched. -/
theorem c10_overwrite_local_file_claim (remote : FTPRemote)
    (user oid : String) (l : List String) (fs0 : LocalFS) (name : String)
    (old : List Nat)
    (hl : remote.loginOk = true) (hu : remote.cwdOk user = true)
    (ho : remote.cwdOk oid = true)
    (hall : ∀ f ∈ l, (remote.retrData f).isSome = true)
    (hmem : name ∈ l) (hold : fs0 name = some old) :
    (order_download remote user oid (some (Sum.inr l)) fs0).ok = true ∧
    (order_download remote user oid (some (Sum.inr l)) fs0).fs name =
      remote.retrData name ∧
    (∀ n, n ∉ l →
      (order_download remote user oid (some (Sum.inr l)) fs0).fs n = fs0 n) :=
  c10_overwrite_local_file remote user oid l fs0 name old hl hu ho hall hmem
    hold

/-- C10 at a concrete pre-existing `f1.nc` (contents `[9]`): after the
download it holds the remote bytes `[7]`, the call succeeded, and an
unrelated name is untouched. -/
theorem c10_overwrite_local_file_claim_witness :
    (order_download okRemote "jdoe" "12345" (some (Sum.inr ["f1.nc"]))
      preFS).ok = true ∧
    (order_download okRemote "jdoe" "12345" (some (Sum.inr ["f1.nc"]))
      preFS).fs "f1.nc" = some [7] ∧
    (order_download okRemote "jdoe" "12345" (some (Sum.inr ["f1.nc"]))
      preFS).fs "other.nc" = none := by
  have h := c10_overwrite_local_file_claim okRemote "jdoe" "12345" ["f1.nc"]
    preFS "f1.nc" [9] rfl rfl rfl (by decide) (by decide) rfl
  exact ⟨h.1, h.2.1, h.2.2 "other.nc" (by decide)⟩

/-- C4 (amended): whenever `strptime` parses the start date as a valid
date other than 9999-12-31 and the date advanced by one day has a year
`strftime` accepts (1900 or later), the omitted end date used for the
`getFiles` query is that date advanced by exactly one calendar day, with
month and year rollover; at `"99991231"` the underlying date addition
overflows, and for result years before 1900 Python 2.7's `strftime`
raises, so no query is issued (see the counterexample). -/
theorem c4_default_enddate_amended (search : String → String → Bool)
    (getF : (String ⊕ List String) → String → String → List String)
    (ds : String ⊕ List String) (pattern : Option String) (s : String)
    (y m d : Nat) (hp : strptimeYmd s = some (y, m, d))
    (hne : ¬ (y = 9999 ∧ m = 12 ∧ d = 31))
    (h19 : 1900 ≤ (nextCalendarDay (y, m, d)).1) :
    (list_files search getF ds s none pattern).query =
      some (ds, s, formatYmd (nextCalendarDay (y, m, d))) := by
  have hd := defaultEnddate_ok s y m d hp hne h19
  simp only [list_files]
  rw [hd]
  split
  · rename_i e he
    simp at he
  · rename_i en hen
    have hen2 : en = formatYmd (nextCalendarDay (y, m, d)) := by
      injection hen with h
      exact h.symm
    subst hen2
    split
    · rfl
    · rfl

/-- C4 at `"20230228"` (a non-leap February): the range query runs with
end date `"20230301"`, one calendar day later with month rollover. -/
theorem c4_default_enddate_amended_witness :
    (list_files anySearch noFiles oneDS "20230228" none none).query =
      some (oneDS, "20230228", "20230301") := by
  have h := c4_default_enddate_amended anySearch noFiles oneDS none
    "20230228" 2023 2 28 (by decide) (by decide) (by decide)
  rw [h]
  decide

/-- C4 is false as stated at two valid date strings: at `"99991231"`
the date addition overflows (`datetime`'s `OverflowError`), and at
`"09981231"` the advanced date 0999-01-01 has a year Python 2.7's
`strftime` refuses (`ValueError`); in both cases no range query is
issued at all rather than one with the advanced end date. -/
theorem c4_overflow_counterexample :
    strptimeYmd "99991231" = some (9999, 12, 31) ∧
    (list_files anySearch noFiles oneDS "99991231" none none).query = none ∧
    (list_files anySearch noFiles oneDS "99991231" none none).result =
      Except.error "OverflowError" ∧
    strptimeYmd "09981231" = some (998, 12, 31) ∧
    (list_files anySearch noFiles oneDS "09981231" none none).query = none ∧
    (list_files anySearch noFiles oneDS "09981231" none none).result =
      Except.error "ValueError" := by
  refine ⟨by decide, by decide, by rfl, by decide, by decide, by rfl⟩

/-- C9 is false as stated: `"2023011"` is not in `YYYYMMDD` form (it has
seven characters), yet with `enddate = None` no parse error is raised —
`strptime`'s `%m`/`%d` accept one-digit fields, the string parses as
2023-01-01 and the query is issued with end date `"20230102"`. -/
theorem c9_loose_parse_counterexample :
    ("2023011" : String).length = 7 ∧
    (list_files anySearch noFiles oneDS "2023011" none none).query =
      some (oneDS, "2023011", "20230102") := by
  constructor
  · decide
  · decide
